import Mathlib

/-!
Shallow embedding of `src/backend-sample/ext_auth_endpoints.py`
(CoderCouple/context0-chrome-extension).

The file defines a Redis-backed pair of FastAPI endpoints
(`get_extension_auth_status`, `complete_extension_auth`) and an
alternative in-process store `InMemoryAuthStore` with two parallel
Python dicts (`store` for payloads, `expiry` for absolute expiry
instants) and a lazy expiry sweep `_cleanup_expired`.

Modelling choices:
- Python dicts become association lists `List (String × V)` with
  Python dict semantics: assignment replaces the first binding in
  place or appends, lookup returns the first binding, `pop` removes
  the binding.  Reachable dicts have no duplicate keys; theorems that
  need this carry a `Nodup` hypothesis on the key list.
- `datetime.utcnow()` becomes an explicit `now : Nat` argument
  threaded through each operation; `timedelta(seconds = t)` becomes
  addition on `Nat`.
- The Redis client becomes an explicit state: a keyed map of payloads
  with absolute expiry plus a `failing` flag; when `failing` is set,
  every Redis call raises (models connection failure), which the
  endpoints catch in their `try/except` blocks.
- Payload values are opaque type parameters (`V` for the in-memory
  store, `U` for the `user_data` blob), as the source treats them.
-/

namespace ExtAuth

/-- Python dict lookup `d.get(k)` / `d[k]` on an association list:
returns the first binding for `k`, if any. -/
def alGet {V : Type} : List (String × V) → String → Option V
  | [], _ => none
  | (k', v') :: rest, k => if k' = k then some v' else alGet rest k

/-- Python dict assignment `d[k] = v`: replaces the first binding for
`k` in place, or appends a new binding at the end. -/
def alSet {V : Type} : List (String × V) → String → V → List (String × V)
  | [], k, v => [(k, v)]
  | (k', v') :: rest, k, v =>
      if k' = k then (k, v) :: rest else (k', v') :: alSet rest k v

/-- Python dict removal `d.pop(k, None)`: removes the binding(s) for
`k`; no error if absent. -/
def alDel {V : Type} : List (String × V) → String → List (String × V)
  | [], _ => []
  | (k', v') :: rest, k =>
      if k' = k then alDel rest k else (k', v') :: alDel rest k

/-- The in-memory fallback store: a payload dict and a parallel expiry
dict, as in `InMemoryAuthStore.__init__`. -/
structure InMemoryAuthStore (V : Type) where
  store : List (String × V)
  expiry : List (String × Nat)
deriving Repr

/-- `InMemoryAuthStore()`: both dicts start empty. -/
def InMemoryAuthStore.mk_empty (V : Type) : InMemoryAuthStore V := ⟨[], []⟩

/-- `InMemoryAuthStore.delete`: pop the key from both dicts. -/
def InMemoryAuthStore.delete {V : Type} (s : InMemoryAuthStore V) (key : String) :
    InMemoryAuthStore V :=
  ⟨alDel s.store key, alDel s.expiry key⟩

/-- The list `expired_keys = [k for k, exp in self.expiry.items() if exp < now]`
computed by `_cleanup_expired`. -/
def expiredKeys {V : Type} (s : InMemoryAuthStore V) (now : Nat) : List String :=
  (s.expiry.filter (fun p => p.2 < now)).map Prod.fst

/-- `InMemoryAuthStore._cleanup_expired`: collect the keys whose expiry
instant is strictly before `now`, then delete each from both dicts. -/
def InMemoryAuthStore.cleanup_expired {V : Type} (s : InMemoryAuthStore V)
    (now : Nat) : InMemoryAuthStore V :=
  (expiredKeys s now).foldl (fun acc k => acc.delete k) s

/-- `InMemoryAuthStore.set`: write the payload and the absolute expiry
`now + ttl_seconds` into the two dicts, then run the lazy sweep. -/
def InMemoryAuthStore.set {V : Type} (s : InMemoryAuthStore V) (key : String)
    (value : V) (ttl_seconds : Nat) (now : Nat) : InMemoryAuthStore V :=
  let s1 : InMemoryAuthStore V := ⟨alSet s.store key value, alSet s.expiry key (now + ttl_seconds)⟩
  s1.cleanup_expired now

/-- `InMemoryAuthStore.get`: run the lazy sweep, then return the stored
payload when the key is in both dicts and `now` is strictly before the
stored expiry; otherwise `None`.  Returns the post-sweep state
alongside the Python return value. -/
def InMemoryAuthStore.get {V : Type} (s : InMemoryAuthStore V) (key : String)
    (now : Nat) : InMemoryAuthStore V × Option V :=
  let s1 := s.cleanup_expired now
  match alGet s1.store key, alGet s1.expiry key with
  | some v, some exp => if now < exp then (s1, some v) else (s1, none)
  | _, _ => (s1, none)

/-! ## Redis-backed endpoint path -/

/-- The JSON blob stored by `complete_extension_auth`:
`{"clerk_token": ..., "user_data": ..., "timestamp": ...}`.  The
`json.dumps`/`json.loads` round trip is the identity on this data, so
the cache stores the structured value directly. -/
structure AuthCacheData (U : Type) where
  clerk_token : String
  user_data : U
  timestamp : Nat
deriving Repr, DecidableEq

/-- The Redis client: a keyed map from cache keys to payloads with an
absolute expiry instant (`setex` stores a TTL; Redis evicts the key
once the TTL has elapsed), plus a `failing` flag modelling a backend
that raises (connection failure) on every call. -/
structure RedisState (U : Type) where
  data : List (String × (AuthCacheData U × Nat))
  failing : Bool
deriving Repr, DecidableEq

/-- `redis_client.get(key)`: raises when the backend is failing;
otherwise returns the stored value if the key is live (present and
not yet evicted by its TTL), else `None`. -/
def redisGet {U : Type} (st : RedisState U) (key : String) (now : Nat) :
    Except String (Option (AuthCacheData U)) :=
  if st.failing then .error "connection refused"
  else .ok (match alGet st.data key with
    | some (v, exp) => if now < exp then some v else none
    | none => none)

/-- `redis_client.delete(key)`: raises when the backend is failing;
otherwise removes the key. -/
def redisDelete {U : Type} (st : RedisState U) (key : String) :
    Except String (RedisState U) :=
  if st.failing then .error "connection refused"
  else .ok ⟨alDel st.data key, st.failing⟩

/-- `redis_client.setex(key, ttl, value)`: raises when the backend is
failing; otherwise stores the value with absolute expiry `now + ttl`. -/
def redisSetex {U : Type} (st : RedisState U) (key : String) (ttl : Nat)
    (v : AuthCacheData U) (now : Nat) : Except String (RedisState U) :=
  if st.failing then .error "connection refused"
  else .ok ⟨alSet st.data key (v, now + ttl), st.failing⟩

/-- The `result` object of a status response body: either
`{"status": "pending"}` or
`{"status": "completed", "clerk_token": ..., "user_data": ...}`. -/
inductive StatusResult (U : Type) where
  | pending
  | completed (clerk_token : String) (user_data : U)
deriving Repr, DecidableEq

/-- A status endpoint response body.  `status_code` is `some 500` in
the error body (which carries an explicit `"status_code": 500` field)
and `none` in the success bodies (which carry no such field). -/
structure StatusResponse (U : Type) where
  success : Bool
  result : Option (StatusResult U)
  message : String
  status_code : Option Nat
deriving Repr, DecidableEq

/-- `GET /api/v1/ext-auth-status`: look up `"ext_auth:" + session_id`;
absent ⇒ pending body; present ⇒ parse, delete from cache (one-time
use), and return the completed body; any raised exception ⇒ the
`success: False` body with `status_code: 500`.  Returns the
post-request cache state alongside the response body. -/
def get_extension_auth_status {U : Type} (st : RedisState U)
    (session_id : String) (now : Nat) : RedisState U × StatusResponse U :=
  let cache_key := "ext_auth:" ++ session_id
  match redisGet st cache_key now with
  | .error e =>
      (st, ⟨false, none, "Error checking auth status: " ++ e, some 500⟩)
  | .ok none =>
      (st, ⟨true, some .pending, "Authentication pending", none⟩)
  | .ok (some auth_data) =>
      match redisDelete st cache_key with
      | .error e =>
          (st, ⟨false, none, "Error checking auth status: " ++ e, some 500⟩)
      | .ok st' =>
          (st', ⟨true,
                 some (.completed auth_data.clerk_token auth_data.user_data),
                 "Authentication completed successfully", none⟩)

/-- The request body of `POST /api/v1/ext-auth-complete`. -/
structure ExtAuthComplete (U : Type) where
  session_id : String
  clerk_token : String
  user_data : U
deriving Repr, DecidableEq

/-- The success response body of the completion endpoint:
`{"success": True, "result": {"session_id": ..., "status": "stored"},
"message": ..., "status_code": 200}`. -/
structure CompleteBody where
  success : Bool
  session_id : String
  status : String
  message : String
  status_code : Nat
deriving Repr, DecidableEq

/-- Outcome of the completion endpoint: a returned JSON body, or a
raised `HTTPException(status_code, detail)` (which FastAPI converts to
an HTTP error response, not to a handler-returned body). -/
inductive CompleteResult where
  | ok (body : CompleteBody)
  | httpException (status_code : Nat) (detail : String)
deriving Repr, DecidableEq

/-- Whether a completion outcome is a returned body of the shape
`{success: false, message, status_code}` (as opposed to a raised
exception or a success body). -/
def CompleteResult.isFailureBody : CompleteResult → Bool
  | .ok body => !body.success
  | .httpException _ _ => false

/-- `POST /api/v1/ext-auth-complete`: store the auth data under
`"ext_auth:" + session_id` with a 5-minute (300 s) TTL via `setex`;
on success return the stored body; if the cache raises, re-raise as
`HTTPException(status_code=500, detail=...)`. -/
def complete_extension_auth {U : Type} (st : RedisState U)
    (request : ExtAuthComplete U) (now : Nat) : RedisState U × CompleteResult :=
  let cache_key := "ext_auth:" ++ request.session_id
  let cache_data : AuthCacheData U := ⟨request.clerk_token, request.user_data, now⟩
  match redisSetex st cache_key 300 cache_data now with
  | .error e => (st, .httpException 500 ("Failed to store auth data: " ++ e))
  | .ok st' =>
      (st', .ok ⟨true, request.session_id, "stored",
                 "Authentication data stored successfully", 200⟩)

/-- Well-formedness of the two parallel dicts: reachable Python dicts
never hold a duplicate key. -/
def WF {V : Type} (s : InMemoryAuthStore V) : Prop :=
  (s.store.map Prod.fst).Nodup ∧ (s.expiry.map Prod.fst).Nodup

instance {V : Type} (s : InMemoryAuthStore V) : Decidable (WF s) := by
  unfold WF
  infer_instance

/-- The key sets of the payload dict and of the expiry dict agree. -/
def keysEq {V : Type} (s : InMemoryAuthStore V) : Prop :=
  ∀ j : String, j ∈ s.store.map Prod.fst ↔ j ∈ s.expiry.map Prod.fst

/-- Concrete two-key store fixture used to witness the
key-independence frame property. -/
def frameFixture : InMemoryAuthStore Nat :=
  ⟨[("j", 9), ("k", 1)], [("j", 100), ("k", 2)]⟩

/-! ## Association-list lemmas -/

theorem alGet_eq_none_iff {V : Type} (l : List (String × V)) (j : String) :
    alGet l j = none ↔ j ∉ l.map Prod.fst := by
  induction l with
  | nil => simp [alGet]
  | cons p rest ih =>
      obtain ⟨k', v'⟩ := p
      by_cases h : k' = j
      · simp [alGet, h]
      · simp [alGet, h, ih, Ne.symm h]

theorem mem_of_alGet_eq_some {V : Type} {l : List (String × V)} {j : String}
    {v : V} (h : alGet l j = some v) : (j, v) ∈ l := by
  induction l with
  | nil => simp [alGet] at h
  | cons p rest ih =>
      obtain ⟨k', v'⟩ := p
      by_cases hk : k' = j
      · subst hk
        simp [alGet] at h
        simp [h]
      · simp [alGet, hk] at h
        simp [ih h]

theorem alGet_eq_some_iff_of_nodup {V : Type} {l : List (String × V)}
    (h : (l.map Prod.fst).Nodup) (j : String) (v : V) :
    alGet l j = some v ↔ (j, v) ∈ l := by
  constructor
  · exact mem_of_alGet_eq_some
  · intro hm
    induction l with
    | nil => simp at hm
    | cons p rest ih =>
        obtain ⟨k', v'⟩ := p
        simp only [List.map_cons, List.nodup_cons] at h
        rcases List.mem_cons.mp hm with heq | htail
        · have h1 : j = k' := congrArg Prod.fst heq
          have h2 : v = v' := congrArg Prod.snd heq
          subst h1
          subst h2
          simp [alGet]
        · have hne : k' ≠ j := by
            intro hkj
            subst hkj
            exact h.1 (List.mem_map.mpr ⟨(k', v), htail, rfl⟩)
          simp [alGet, hne, ih h.2 htail]

theorem alGet_alSet_self {V : Type} (l : List (String × V)) (k : String) (v : V) :
    alGet (alSet l k v) k = some v := by
  induction l with
  | nil => simp [alSet, alGet]
  | cons p rest ih =>
      obtain ⟨k', v'⟩ := p
      by_cases h : k' = k
      · simp [alSet, alGet, h]
      · simp [alSet, alGet, h, ih]

theorem alGet_alSet_ne {V : Type} (l : List (String × V)) {j k : String} (v : V)
    (hjk : j ≠ k) : alGet (alSet l k v) j = alGet l j := by
  induction l with
  | nil => simp [alSet, alGet, Ne.symm hjk]
  | cons p rest ih =>
      obtain ⟨k', v'⟩ := p
      by_cases h : k' = k
      · simp [alSet, alGet, h, Ne.symm hjk]
      · simp [alSet, alGet, h, ih]

theorem alGet_alDel_self {V : Type} (l : List (String × V)) (k : String) :
    alGet (alDel l k) k = none := by
  induction l with
  | nil => simp [alDel, alGet]
  | cons p rest ih =>
      obtain ⟨k', v'⟩ := p
      by_cases h : k' = k
      · simp [alDel, h, ih]
      · simp [alDel, alGet, h, ih]

theorem alGet_alDel_ne {V : Type} (l : List (String × V)) {j k : String}
    (hjk : j ≠ k) : alGet (alDel l k) j = alGet l j := by
  induction l with
  | nil => simp [alDel]
  | cons p rest ih =>
      obtain ⟨k', v'⟩ := p
      by_cases h : k' = k
      · subst h
        simp [alDel, alGet, Ne.symm hjk, ih]
      · simp [alDel, alGet, h, ih]

theorem mem_keys_alSet {V : Type} (l : List (String × V)) (j k : String) (v : V) :
    j ∈ (alSet l k v).map Prod.fst ↔ j = k ∨ j ∈ l.map Prod.fst := by
  induction l with
  | nil => simp [alSet]
  | cons p rest ih =>
      obtain ⟨k', v'⟩ := p
      by_cases h : k' = k
      · subst h
        simp [alSet]
      · simp [alSet, h, ih]
        tauto

theorem alDel_sublist {V : Type} (l : List (String × V)) (k : String) :
    List.Sublist (alDel l k) l := by
  induction l with
  | nil => simp [alDel]
  | cons p rest ih =>
      obtain ⟨k', v'⟩ := p
      by_cases h : k' = k
      · simpa [alDel, h] using ih.cons (k', v')
      · simpa [alDel, h] using ih.cons₂ (k', v')

theorem mem_keys_alDel {V : Type} (l : List (String × V)) (j k : String) :
    j ∈ (alDel l k).map Prod.fst ↔ j ∈ l.map Prod.fst ∧ j ≠ k := by
  induction l with
  | nil => simp [alDel]
  | cons p rest ih =>
      obtain ⟨k', v'⟩ := p
      by_cases h : k' = k
      · subst h
        rw [show alDel ((k', v') :: rest) k' = alDel rest k' from by simp [alDel]]
        simp only [ih, List.map_cons, List.mem_cons]
        constructor
        · rintro ⟨hm, hne⟩
          exact ⟨Or.inr hm, hne⟩
        · rintro ⟨hj | hm, hne⟩
          · exact absurd hj hne
          · exact ⟨hm, hne⟩
      · simp only [alDel, if_neg h, List.map_cons, List.mem_cons, ih]
        constructor
        · rintro (rfl | ⟨hm, hne⟩)
          · exact ⟨Or.inl rfl, h⟩
          · exact ⟨Or.inr hm, hne⟩
        · rintro ⟨rfl | hm, hne⟩
          · exact Or.inl rfl
          · exact Or.inr ⟨hm, hne⟩

theorem nodup_keys_alSet {V : Type} (l : List (String × V)) (k : String) (v : V)
    (h : (l.map Prod.fst).Nodup) : ((alSet l k v).map Prod.fst).Nodup := by
  induction l with
  | nil => simp [alSet]
  | cons p rest ih =>
      obtain ⟨k', v'⟩ := p
      simp only [List.map_cons, List.nodup_cons] at h
      by_cases hk : k' = k
      · subst hk
        simpa [alSet] using h
      · rw [show (alSet ((k', v') :: rest) k v) = (k', v') :: alSet rest k v from by
          simp [alSet, hk]]
        simp only [List.map_cons, List.nodup_cons]
        refine ⟨?_, ih h.2⟩
        intro hmem
        rcases (mem_keys_alSet rest k' k v).mp hmem with hkk | hm
        · exact hk hkk
        · exact h.1 hm

theorem nodup_keys_alDel {V : Type} (l : List (String × V)) (k : String)
    (h : (l.map Prod.fst).Nodup) : ((alDel l k).map Prod.fst).Nodup :=
  h.sublist ((alDel_sublist l k).map Prod.fst)

/-! ## Lazy-sweep (`_cleanup_expired`) lemmas -/

theorem foldl_delete_store {V : Type} (ks : List String) (s : InMemoryAuthStore V) :
    (ks.foldl (fun acc k => acc.delete k) s).store =
      ks.foldl (fun acc k => alDel acc k) s.store := by
  induction ks generalizing s with
  | nil => rfl
  | cons k ks ih => simpa [InMemoryAuthStore.delete] using ih (s.delete k)

theorem foldl_delete_expiry {V : Type} (ks : List String) (s : InMemoryAuthStore V) :
    (ks.foldl (fun acc k => acc.delete k) s).expiry =
      ks.foldl (fun acc k => alDel acc k) s.expiry := by
  induction ks generalizing s with
  | nil => rfl
  | cons k ks ih => simpa [InMemoryAuthStore.delete] using ih (s.delete k)

theorem alGet_foldl_alDel {V : Type} (ks : List String) (l : List (String × V))
    (j : String) :
    alGet (ks.foldl (fun acc k => alDel acc k) l) j =
      if j ∈ ks then none else alGet l j := by
  induction ks generalizing l with
  | nil => simp
  | cons k ks ih =>
      by_cases hjk : j = k
      · subst hjk
        simp only [List.foldl_cons, ih (alDel l j), List.mem_cons]
        by_cases hjs : j ∈ ks
        · simp [hjs]
        · simp [hjs, alGet_alDel_self]
      · simp only [List.foldl_cons, ih (alDel l k), List.mem_cons]
        by_cases hjs : j ∈ ks
        · simp [hjs]
        · simp [hjs, hjk, alGet_alDel_ne l hjk]

theorem mem_keys_foldl_alDel {V : Type} (ks : List String) (l : List (String × V))
    (j : String) :
    j ∈ (ks.foldl (fun acc k => alDel acc k) l).map Prod.fst ↔
      j ∈ l.map Prod.fst ∧ j ∉ ks := by
  induction ks generalizing l with
  | nil => simp
  | cons k ks ih =>
      simp only [List.foldl_cons, ih (alDel l k), mem_keys_alDel, List.mem_cons]
      constructor
      · rintro ⟨⟨hm, hne⟩, hns⟩
        exact ⟨hm, by simp [hne, hns]⟩
      · rintro ⟨hm, hns⟩
        simp only [not_or] at hns
        exact ⟨⟨hm, hns.1⟩, hns.2⟩

theorem nodup_keys_foldl_alDel {V : Type} (ks : List String)
    (l : List (String × V)) (h : (l.map Prod.fst).Nodup) :
    ((ks.foldl (fun acc k => alDel acc k) l).map Prod.fst).Nodup := by
  induction ks generalizing l with
  | nil => simpa
  | cons k ks ih => exact ih (alDel l k) (nodup_keys_alDel l k h)

theorem cleanup_store {V : Type} (s : InMemoryAuthStore V) (now : Nat) :
    (s.cleanup_expired now).store =
      (expiredKeys s now).foldl (fun acc k => alDel acc k) s.store :=
  foldl_delete_store _ s

theorem cleanup_expiry {V : Type} (s : InMemoryAuthStore V) (now : Nat) :
    (s.cleanup_expired now).expiry =
      (expiredKeys s now).foldl (fun acc k => alDel acc k) s.expiry :=
  foldl_delete_expiry _ s

theorem alGet_cleanup_store {V : Type} (s : InMemoryAuthStore V) (now : Nat)
    (j : String) :
    alGet (s.cleanup_expired now).store j =
      if j ∈ expiredKeys s now then none else alGet s.store j := by
  rw [cleanup_store, alGet_foldl_alDel]

theorem alGet_cleanup_expiry {V : Type} (s : InMemoryAuthStore V) (now : Nat)
    (j : String) :
    alGet (s.cleanup_expired now).expiry j =
      if j ∈ expiredKeys s now then none else alGet s.expiry j := by
  rw [cleanup_expiry, alGet_foldl_alDel]

theorem mem_expiredKeys {V : Type} (s : InMemoryAuthStore V) (now : Nat)
    (j : String) :
    j ∈ expiredKeys s now ↔ ∃ e, (j, e) ∈ s.expiry ∧ e < now := by
  simp only [expiredKeys, List.mem_map, List.mem_filter]
  constructor
  · rintro ⟨⟨k', e⟩, ⟨hm, he⟩, rfl⟩
    exact ⟨e, hm, by simpa using he⟩
  · rintro ⟨e, hm, he⟩
    exact ⟨(j, e), ⟨hm, by simpa using he⟩, rfl⟩

theorem mem_expiredKeys_of_nodup {V : Type} {s : InMemoryAuthStore V}
    (h : (s.expiry.map Prod.fst).Nodup) {j : String} {e : Nat}
    (he : alGet s.expiry j = some e) (now : Nat) :
    j ∈ expiredKeys s now ↔ e < now := by
  rw [mem_expiredKeys]
  constructor
  · rintro ⟨e', hm, hlt⟩
    have : alGet s.expiry j = some e' := (alGet_eq_some_iff_of_nodup h j e').mpr hm
    rw [he] at this
    exact (Option.some.injEq _ _ ▸ this : e = e') ▸ hlt
  · intro hlt
    exact ⟨e, (alGet_eq_some_iff_of_nodup h j e).mp he, hlt⟩

theorem not_mem_expiredKeys_of_none {V : Type} {s : InMemoryAuthStore V}
    {j : String} (he : alGet s.expiry j = none) (now : Nat) :
    j ∉ expiredKeys s now := by
  rw [mem_expiredKeys]
  rintro ⟨e, hm, -⟩
  have : j ∈ s.expiry.map Prod.fst := List.mem_map.mpr ⟨(j, e), hm, rfl⟩
  exact ((alGet_eq_none_iff s.expiry j).mp he) this

theorem WF_cleanup {V : Type} {s : InMemoryAuthStore V} (h : WF s) (now : Nat) :
    WF (s.cleanup_expired now) := by
  refine ⟨?_, ?_⟩
  · rw [cleanup_store]
    exact nodup_keys_foldl_alDel _ _ h.1
  · rw [cleanup_expiry]
    exact nodup_keys_foldl_alDel _ _ h.2

theorem WF_set {V : Type} {s : InMemoryAuthStore V} (h : WF s) (k : String)
    (v : V) (ttl now : Nat) : WF (s.set k v ttl now) :=
  WF_cleanup ⟨nodup_keys_alSet _ k v h.1, nodup_keys_alSet _ k _ h.2⟩ now

theorem WF_delete {V : Type} {s : InMemoryAuthStore V} (h : WF s) (k : String) :
    WF (s.delete k) :=
  ⟨nodup_keys_alDel _ k h.1, nodup_keys_alDel _ k h.2⟩

/-! ## Characterizations of `get` and `set` -/

theorem get_fst {V : Type} (s : InMemoryAuthStore V) (k : String) (now : Nat) :
    (s.get k now).1 = s.cleanup_expired now := by
  unfold InMemoryAuthStore.get
  rcases hs : alGet (s.cleanup_expired now).store k with _ | v
  · simp [hs]
  · rcases he : alGet (s.cleanup_expired now).expiry k with _ | e
    · simp [hs, he]
    · by_cases hlt : now < e <;> simp [hs, he, hlt]

theorem get_snd {V : Type} (s : InMemoryAuthStore V) (k : String) (now : Nat)
    (h : (s.expiry.map Prod.fst).Nodup) :
    (s.get k now).2 =
      match alGet s.store k, alGet s.expiry k with
      | some v, some e => if now < e then some v else none
      | _, _ => none := by
  have hstore := alGet_cleanup_store s now k
  have hexp := alGet_cleanup_expiry s now k
  unfold InMemoryAuthStore.get
  rcases he : alGet s.expiry k with _ | e
  · have hk : k ∉ expiredKeys s now := not_mem_expiredKeys_of_none he now
    rw [if_neg hk] at hstore hexp
    rw [he] at hexp
    rcases hs : alGet s.store k with _ | v
    · rw [hs] at hstore
      simp [hstore, hexp]
    · rw [hs] at hstore
      simp [hstore, hexp]
  · by_cases hlt : e < now
    · have hk : k ∈ expiredKeys s now := (mem_expiredKeys_of_nodup h he now).mpr hlt
      rw [if_pos hk] at hstore hexp
      rcases hs : alGet s.store k with _ | v
      · simp [hstore, hexp, hs]
      · simp [hstore, hexp, hs, Nat.lt_asymm hlt]
    · have hk : k ∉ expiredKeys s now :=
        fun hm => hlt ((mem_expiredKeys_of_nodup h he now).mp hm)
      rw [if_neg hk] at hstore hexp
      rw [he] at hexp
      rcases hs : alGet s.store k with _ | v
      · rw [hs] at hstore
        simp [hstore, hexp]
      · rw [hs] at hstore
        by_cases hlt2 : now < e <;> simp [hstore, hexp, hs, hlt2]

theorem set_eq_cleanup {V : Type} (s : InMemoryAuthStore V) (k : String) (v : V)
    (ttl now : Nat) :
    s.set k v ttl now =
      InMemoryAuthStore.cleanup_expired
        ⟨alSet s.store k v, alSet s.expiry k (now + ttl)⟩ now := rfl

theorem alGet_set_expiry_self {V : Type} (s : InMemoryAuthStore V) (k : String)
    (v : V) (ttl now : Nat) (h : (s.expiry.map Prod.fst).Nodup) :
    alGet (s.set k v ttl now).expiry k = some (now + ttl) := by
  rw [set_eq_cleanup, alGet_cleanup_expiry]
  have hadd : alGet (alSet s.expiry k (now + ttl)) k = some (now + ttl) :=
    alGet_alSet_self s.expiry k (now + ttl)
  have hnd : ((alSet s.expiry k (now + ttl)).map Prod.fst).Nodup :=
    nodup_keys_alSet s.expiry k (now + ttl) h
  have hk : k ∉ expiredKeys ⟨alSet s.store k v, alSet s.expiry k (now + ttl)⟩ now := by
    rw [mem_expiredKeys_of_nodup hnd hadd now]
    exact Nat.not_lt.mpr (Nat.le_add_right now ttl)
  rw [if_neg hk]
  exact hadd

theorem alGet_set_store_self {V : Type} (s : InMemoryAuthStore V) (k : String)
    (v : V) (ttl now : Nat) (h : (s.expiry.map Prod.fst).Nodup) :
    alGet (s.set k v ttl now).store k = some v := by
  rw [set_eq_cleanup, alGet_cleanup_store]
  have hadd : alGet (alSet s.expiry k (now + ttl)) k = some (now + ttl) :=
    alGet_alSet_self s.expiry k (now + ttl)
  have hnd : ((alSet s.expiry k (now + ttl)).map Prod.fst).Nodup :=
    nodup_keys_alSet s.expiry k (now + ttl) h
  have hk : k ∉ expiredKeys ⟨alSet s.store k v, alSet s.expiry k (now + ttl)⟩ now := by
    rw [mem_expiredKeys_of_nodup hnd hadd now]
    exact Nat.not_lt.mpr (Nat.le_add_right now ttl)
  rw [if_neg hk]
  exact alGet_alSet_self s.store k v

/-! ## Claim theorems -/

/-- C2: Read-your-writes round trip — for every key `k`, payload `p`
and `ttl_seconds > 0`, `InMemoryAuthStore.set(k, p, ttl_seconds)`
followed immediately (before the TTL elapses) by
`InMemoryAuthStore.get(k)` returns `p`. -/
theorem C2_read_your_writes {V : Type} (s : InMemoryAuthStore V) (k : String)
    (p : V) (ttl_seconds now now' : Nat) (hWF : WF s) (httl : 0 < ttl_seconds)
    (h1 : now ≤ now') (h2 : now' < now + ttl_seconds) :
    ((s.set k p ttl_seconds now).get k now').2 = some p := by
  have hnd' : (((s.set k p ttl_seconds now).expiry).map Prod.fst).Nodup :=
    (WF_set hWF k p ttl_seconds now).2
  rw [get_snd _ _ _ hnd', alGet_set_store_self s k p _ now hWF.2,
    alGet_set_expiry_self s k p _ now hWF.2]
  simp [h2]

/-- C2 witness at a concrete store, key, payload and times. -/
theorem C2_read_your_writes_witness :
    WF (InMemoryAuthStore.mk_empty Nat) ∧ 0 < 300 ∧ 0 ≤ 10 ∧ 10 < 0 + 300 ∧
    (((InMemoryAuthStore.mk_empty Nat).set "k" 42 300 0).get "k" 10).2 = some 42 :=
  ⟨by decide, by decide, by decide, by decide,
   C2_read_your_writes (InMemoryAuthStore.mk_empty Nat) "k" 42 300 0 10
     (by decide) (by decide) (by decide) (by decide)⟩

/-- C4: TTL expiry — once the current time has passed the stored
expiry instant `now + ttl_seconds`, `InMemoryAuthStore.get(k)` returns
`None` even though `delete(k)` was never called. -/
theorem C4_ttl_expiry {V : Type} (s : InMemoryAuthStore V) (k : String) (p : V)
    (ttl_seconds now now' : Nat) (hWF : WF s) (h : now + ttl_seconds < now') :
    ((s.set k p ttl_seconds now).get k now').2 = none := by
  have hnd' : (((s.set k p ttl_seconds now).expiry).map Prod.fst).Nodup :=
    (WF_set hWF k p ttl_seconds now).2
  rw [get_snd _ _ _ hnd', alGet_set_store_self s k p _ now hWF.2,
    alGet_set_expiry_self s k p _ now hWF.2]
  simp [Nat.lt_asymm h]

/-- C4 witness at a concrete store, key, payload and times. -/
theorem C4_ttl_expiry_witness :
    WF (InMemoryAuthStore.mk_empty Nat) ∧ 0 + 300 < 301 ∧
    (((InMemoryAuthStore.mk_empty Nat).set "k" 42 300 0).get "k" 301).2 = none :=
  ⟨by decide, by decide,
   C4_ttl_expiry (InMemoryAuthStore.mk_empty Nat) "k" 42 300 0 301
     (by decide) (by decide)⟩

/-- C7: Never-written key — `InMemoryAuthStore.get` on a key with no
stored payload returns `None`, and a GET status call for an unknown
session id returns the `success: true` pending body. -/
theorem C7_never_written {V U : Type} (s : InMemoryAuthStore V) (k : String)
    (now : Nat) (hk : alGet s.store k = none)
    (st : RedisState U) (sid : String) (now' : Nat)
    (hf : st.failing = false)
    (hsid : alGet st.data ("ext_auth:" ++ sid) = none) :
    (s.get k now).2 = none ∧
    (get_extension_auth_status st sid now').2 =
      ⟨true, some .pending, "Authentication pending", none⟩ := by
  constructor
  · have hcl : alGet (s.cleanup_expired now).store k = none := by
      rw [alGet_cleanup_store]
      by_cases hm : k ∈ expiredKeys s now <;> simp [hm, hk]
    unfold InMemoryAuthStore.get
    rcases he : alGet (s.cleanup_expired now).expiry k with _ | e <;>
      simp [hcl, he]
  · simp [get_extension_auth_status, redisGet, hf, hsid]

/-- C7 witness at a concrete store, unknown key and unknown session. -/
theorem C7_never_written_witness :
    alGet (⟨[("a", 1)], [("a", 50)]⟩ : InMemoryAuthStore Nat).store "b" = none ∧
    (⟨[], false⟩ : RedisState Nat).failing = false ∧
    alGet (⟨[], false⟩ : RedisState Nat).data ("ext_auth:" ++ "sess-404") = none ∧
    ((⟨[("a", 1)], [("a", 50)]⟩ : InMemoryAuthStore Nat).get "b" 7).2 = none ∧
    (get_extension_auth_status (⟨[], false⟩ : RedisState Nat) "sess-404" 3).2 =
      ⟨true, some .pending, "Authentication pending", none⟩ := by
  refine ⟨by decide, by decide, by decide, ?_⟩
  exact C7_never_written (⟨[("a", 1)], [("a", 50)]⟩ : InMemoryAuthStore Nat) "b" 7
    (by decide) (⟨[], false⟩ : RedisState Nat) "sess-404" 3 (by decide) (by decide)

/-- C10: the expiry boundary is exclusive — when the current instant
equals the stored expiry exactly, `get` returns `None` (strict
`now < expiry`), yet `_cleanup_expired`'s strict `expiry < now` has
not purged the entry, so it is still physically present afterwards. -/
theorem C10_expiry_boundary {V : Type} (s : InMemoryAuthStore V) (k : String)
    (v : V) (now : Nat) (hWF : WF s) (hs : alGet s.store k = some v)
    (he : alGet s.expiry k = some now) :
    (s.get k now).2 = none ∧
    alGet ((s.get k now).1).store k = some v ∧
    alGet ((s.get k now).1).expiry k = some now := by
  have hk : k ∉ expiredKeys s now := by
    rw [mem_expiredKeys_of_nodup hWF.2 he now]
    exact lt_irrefl now
  refine ⟨?_, ?_, ?_⟩
  · rw [get_snd s k now hWF.2, hs, he]
    simp
  · rw [get_fst, alGet_cleanup_store, if_neg hk]
    exact hs
  · rw [get_fst, alGet_cleanup_expiry, if_neg hk]
    exact he

/-- C10 witness at a concrete store whose key expires exactly now. -/
theorem C10_expiry_boundary_witness :
    WF (⟨[("k", 42)], [("k", 5)]⟩ : InMemoryAuthStore Nat) ∧
    alGet (⟨[("k", 42)], [("k", 5)]⟩ : InMemoryAuthStore Nat).store "k" = some 42 ∧
    alGet (⟨[("k", 42)], [("k", 5)]⟩ : InMemoryAuthStore Nat).expiry "k" = some 5 ∧
    ((⟨[("k", 42)], [("k", 5)]⟩ : InMemoryAuthStore Nat).get "k" 5).2 = none ∧
    alGet (((⟨[("k", 42)], [("k", 5)]⟩ : InMemoryAuthStore Nat).get "k" 5).1).store "k" = some 42 ∧
    alGet (((⟨[("k", 42)], [("k", 5)]⟩ : InMemoryAuthStore Nat).get "k" 5).1).expiry "k" = some 5 := by
  refine ⟨by decide, by decide, by decide, ?_⟩
  have h := C10_expiry_boundary (⟨[("k", 42)], [("k", 5)]⟩ : InMemoryAuthStore Nat)
    "k" 42 5 (by decide) (by decide) (by decide)
  exact ⟨h.1, h.2.1, h.2.2⟩

/-- C6: Last-write-wins overwrite — `set(k, p1, ttl)` then
`set(k, p2, ttl)` with no intervening read leaves exactly one entry
for `k`, and a subsequent `get(k)` before expiry returns `p2`; when
the payloads differ it therefore never returns `p1`. -/
theorem C6_last_write_wins {V : Type} (s : InMemoryAuthStore V) (k : String)
    (p1 p2 : V) (ttl now1 now2 now3 : Nat) (hWF : WF s)
    (h12 : now1 ≤ now2) (h23 : now2 ≤ now3) (h3 : now3 < now2 + ttl) :
    (((s.set k p1 ttl now1).set k p2 ttl now2).store.map Prod.fst).count k = 1 ∧
    ((((s.set k p1 ttl now1).set k p2 ttl now2).get k now3).2 = some p2 ∧
     (p1 ≠ p2 →
       (((s.set k p1 ttl now1).set k p2 ttl now2).get k now3).2 ≠ some p1)) := by
  have hWF1 : WF (s.set k p1 ttl now1) := WF_set hWF k p1 ttl now1
  have hWF2 : WF ((s.set k p1 ttl now1).set k p2 ttl now2) :=
    WF_set hWF1 k p2 ttl now2
  have hsv : alGet ((s.set k p1 ttl now1).set k p2 ttl now2).store k = some p2 :=
    alGet_set_store_self _ k p2 ttl now2 hWF1.2
  have hget : ((((s.set k p1 ttl now1).set k p2 ttl now2)).get k now3).2 = some p2 := by
    rw [get_snd _ _ _ hWF2.2, hsv, alGet_set_expiry_self _ k p2 ttl now2 hWF1.2]
    simp [h3]
  refine ⟨?_, hget, ?_⟩
  · exact List.count_eq_one_of_mem hWF2.1
      (List.mem_map.mpr ⟨(k, p2), mem_of_alGet_eq_some hsv, rfl⟩)
  · intro hne hp1
    rw [hget] at hp1
    exact hne (Option.some.inj hp1).symm

/-- C6 witness at a concrete store, key, two payloads and times. -/
theorem C6_last_write_wins_witness :
    WF (InMemoryAuthStore.mk_empty Nat) ∧ 0 ≤ 1 ∧ 1 ≤ 2 ∧ 2 < 1 + 300 ∧
    ((((InMemoryAuthStore.mk_empty Nat).set "k" 11 300 0).set "k" 22 300 1).store.map
        Prod.fst).count "k" = 1 ∧
    (((((InMemoryAuthStore.mk_empty Nat).set "k" 11 300 0).set "k" 22 300 1).get
        "k" 2).2 = some 22 ∧
     ((11 : Nat) ≠ 22 →
       ((((InMemoryAuthStore.mk_empty Nat).set "k" 11 300 0).set "k" 22 300 1).get
          "k" 2).2 ≠ some 11)) :=
  ⟨by decide, by decide, by decide, by decide,
   C6_last_write_wins (InMemoryAuthStore.mk_empty Nat) "k" 11 22 300 0 1 2
     (by decide) (by decide) (by decide) (by decide)⟩

/-- C8: Key independence — for a distinct key `j` holding an entry
whose expiry is not yet past, `set(k, ...)`, `get(k)` and `delete(k)`
leave `j`'s payload and expiry bindings unchanged. -/
theorem C8_key_independence {V : Type} (s : InMemoryAuthStore V) (k j : String)
    (p : V) (ttl now ej : Nat) (hWF : WF s) (hjk : j ≠ k)
    (hej : alGet s.expiry j = some ej) (hlive : now ≤ ej) :
    (alGet (s.set k p ttl now).store j = alGet s.store j ∧
     alGet (s.set k p ttl now).expiry j = alGet s.expiry j) ∧
    (alGet ((s.get k now).1).store j = alGet s.store j ∧
     alGet ((s.get k now).1).expiry j = alGet s.expiry j) ∧
    (alGet (s.delete k).store j = alGet s.store j ∧
     alGet (s.delete k).expiry j = alGet s.expiry j) := by
  have hnotlt : ¬ ej < now := Nat.not_lt.mpr hlive
  refine ⟨?_, ?_, ?_⟩
  · have hadd : alGet (alSet s.expiry k (now + ttl)) j = some ej := by
      rw [alGet_alSet_ne s.expiry _ hjk]
      exact hej
    have hnd : ((alSet s.expiry k (now + ttl)).map Prod.fst).Nodup :=
      nodup_keys_alSet s.expiry k (now + ttl) hWF.2
    have hj : j ∉ expiredKeys
        (⟨alSet s.store k p, alSet s.expiry k (now + ttl)⟩ : InMemoryAuthStore V) now := by
      rw [mem_expiredKeys_of_nodup hnd hadd now]
      exact hnotlt
    constructor
    · rw [set_eq_cleanup, alGet_cleanup_store, if_neg hj]
      exact alGet_alSet_ne s.store p hjk
    · rw [set_eq_cleanup, alGet_cleanup_expiry, if_neg hj]
      exact alGet_alSet_ne s.expiry _ hjk
  · have hj : j ∉ expiredKeys s now := by
      rw [mem_expiredKeys_of_nodup hWF.2 hej now]
      exact hnotlt
    constructor
    · rw [get_fst, alGet_cleanup_store, if_neg hj]
    · rw [get_fst, alGet_cleanup_expiry, if_neg hj]
  · exact ⟨alGet_alDel_ne s.store hjk, alGet_alDel_ne s.expiry hjk⟩

/-- C8 witness at a concrete store with live key "j" and touched key "k". -/
theorem C8_key_independence_witness :
    WF frameFixture ∧ "j" ≠ "k" ∧
    alGet frameFixture.expiry "j" = some 100 ∧ 5 ≤ 100 ∧
    ((alGet (frameFixture.set "k" 7 300 5).store "j" = alGet frameFixture.store "j" ∧
      alGet (frameFixture.set "k" 7 300 5).expiry "j" = alGet frameFixture.expiry "j") ∧
     (alGet ((frameFixture.get "k" 5).1).store "j" = alGet frameFixture.store "j" ∧
      alGet ((frameFixture.get "k" 5).1).expiry "j" = alGet frameFixture.expiry "j") ∧
     (alGet (frameFixture.delete "k").store "j" = alGet frameFixture.store "j" ∧
      alGet (frameFixture.delete "k").expiry "j" = alGet frameFixture.expiry "j")) :=
  ⟨by decide, by decide, by decide, by decide,
   C8_key_independence frameFixture "k" "j" 7 300 5 100
     (by decide) (by decide) (by decide) (by decide)⟩

/-- C9: Parallel-mappings invariant — the key set of the payload dict
and the key set of the expiry dict are equal after construction and
are kept equal by `set`, `get`, `delete` and `_cleanup_expired`. -/
theorem C9_parallel_mappings {V : Type} :
    keysEq (InMemoryAuthStore.mk_empty V) ∧
    ∀ (s : InMemoryAuthStore V) (k : String) (v : V) (ttl now : Nat),
      keysEq s →
      keysEq (s.set k v ttl now) ∧ keysEq ((s.get k now).1) ∧
      keysEq (s.delete k) ∧ keysEq (s.cleanup_expired now) := by
  constructor
  · intro j
    simp [InMemoryAuthStore.mk_empty]
  · intro s k v ttl now h
    have hclean : ∀ (s' : InMemoryAuthStore V), keysEq s' →
        keysEq (s'.cleanup_expired now) := by
      intro s' h' j
      rw [cleanup_store, cleanup_expiry, mem_keys_foldl_alDel,
        mem_keys_foldl_alDel, h' j]
    refine ⟨?_, ?_, ?_, hclean s h⟩
    · refine hclean ⟨alSet s.store k v, alSet s.expiry k (now + ttl)⟩ ?_
      intro j
      rw [mem_keys_alSet, mem_keys_alSet, h j]
    · rw [get_fst]
      exact hclean s h
    · intro j
      simp only [InMemoryAuthStore.delete]
      rw [mem_keys_alDel, mem_keys_alDel, h j]

/-- C9 witness: the invariant propagated through each operation at a
concrete well-formed store. -/
theorem C9_parallel_mappings_witness :
    keysEq (InMemoryAuthStore.mk_empty Nat) ∧
    (keysEq ((⟨[("a", 1)], [("a", 7)]⟩ : InMemoryAuthStore Nat).set "k" 5 300 3) ∧
     keysEq (((⟨[("a", 1)], [("a", 7)]⟩ : InMemoryAuthStore Nat).get "k" 3).1) ∧
     keysEq ((⟨[("a", 1)], [("a", 7)]⟩ : InMemoryAuthStore Nat).delete "k") ∧
     keysEq ((⟨[("a", 1)], [("a", 7)]⟩ : InMemoryAuthStore Nat).cleanup_expired 3)) :=
  ⟨C9_parallel_mappings.1,
   C9_parallel_mappings.2 (⟨[("a", 1)], [("a", 7)]⟩ : InMemoryAuthStore Nat)
     "k" 5 300 3 (fun _ => Iff.rfl)⟩

/-- C1: At-most-once delivery — after a GET status call that returns
status "completed" for a session id, the entry for cache key
`"ext_auth:" + session_id` has been deleted from the store as part of
that same call, so an immediately following GET status returns the
pending body. -/
theorem C1_at_most_once {U : Type} (st : RedisState U) (sid : String)
    (now now' : Nat) (t : String) (u : U)
    (h : ((get_extension_auth_status st sid now).2).result =
      some (.completed t u)) :
    alGet ((get_extension_auth_status st sid now).1).data ("ext_auth:" ++ sid) = none ∧
    (get_extension_auth_status ((get_extension_auth_status st sid now).1) sid now').2 =
      ⟨true, some .pending, "Authentication pending", none⟩ := by
  by_cases hf : st.failing
  · simp [get_extension_auth_status, redisGet, hf] at h
  · rcases hv : alGet st.data ("ext_auth:" ++ sid) with _ | ve
    · simp [get_extension_auth_status, redisGet, hf, hv] at h
    · obtain ⟨v, exp⟩ := ve
      by_cases hexp : now < exp
      · have hst1 : (get_extension_auth_status st sid now).1 =
            ⟨alDel st.data ("ext_auth:" ++ sid), st.failing⟩ := by
          simp [get_extension_auth_status, redisGet, redisDelete, hf, hv, hexp]
        refine ⟨?_, ?_⟩
        · rw [hst1]
          exact alGet_alDel_self _ _
        · rw [hst1]
          simp [get_extension_auth_status, redisGet, hf, alGet_alDel_self]
      · simp [get_extension_auth_status, redisGet, hf, hv, hexp] at h

/-- C1 witness at a concrete cache holding a live entry for "s1". -/
theorem C1_at_most_once_witness :
    ((get_extension_auth_status
        (⟨[("ext_auth:s1", (⟨"tok", 7, 0⟩, 10))], false⟩ : RedisState Nat)
        "s1" 5).2).result = some (.completed "tok" 7) ∧
    (alGet ((get_extension_auth_status
        (⟨[("ext_auth:s1", (⟨"tok", 7, 0⟩, 10))], false⟩ : RedisState Nat)
        "s1" 5).1).data ("ext_auth:" ++ "s1") = none ∧
     (get_extension_auth_status ((get_extension_auth_status
        (⟨[("ext_auth:s1", (⟨"tok", 7, 0⟩, 10))], false⟩ : RedisState Nat)
        "s1" 5).1) "s1" 6).2 =
       ⟨true, some .pending, "Authentication pending", none⟩) :=
  ⟨by decide,
   C1_at_most_once (⟨[("ext_auth:s1", (⟨"tok", 7, 0⟩, 10))], false⟩ : RedisState Nat)
     "s1" 5 6 "tok" 7 (by decide)⟩

/-- C5: Success response shape of the status endpoint — whenever a
live entry exists for the polled session id, the response is the
`success: true` completed body carrying the stored `clerk_token`
(the spec's `credential_token`) and `user_data`. -/
theorem C5_status_success_shape {U : Type} (st : RedisState U) (sid : String)
    (now : Nat) (v : AuthCacheData U) (exp : Nat)
    (hf : st.failing = false)
    (hv : alGet st.data ("ext_auth:" ++ sid) = some (v, exp)) (hl : now < exp) :
    (get_extension_auth_status st sid now).2 =
      ⟨true, some (.completed v.clerk_token v.user_data),
       "Authentication completed successfully", none⟩ := by
  simp [get_extension_auth_status, redisGet, redisDelete, hf, hv, hl]

/-- C5 witness at a concrete cache holding a live entry for "s1". -/
theorem C5_status_success_shape_witness :
    (⟨[("ext_auth:s1", (⟨"tok", 7, 0⟩, 10))], false⟩ : RedisState Nat).failing = false ∧
    alGet (⟨[("ext_auth:s1", (⟨"tok", 7, 0⟩, 10))], false⟩ : RedisState Nat).data
      ("ext_auth:" ++ "s1") = some (⟨"tok", 7, 0⟩, 10) ∧ 5 < 10 ∧
    (get_extension_auth_status
        (⟨[("ext_auth:s1", (⟨"tok", 7, 0⟩, 10))], false⟩ : RedisState Nat) "s1" 5).2 =
      ⟨true, some (.completed (⟨"tok", 7, 0⟩ : AuthCacheData Nat).clerk_token
          (⟨"tok", 7, 0⟩ : AuthCacheData Nat).user_data),
       "Authentication completed successfully", none⟩ :=
  ⟨by decide, by decide, by decide,
   C5_status_success_shape (⟨[("ext_auth:s1", (⟨"tok", 7, 0⟩, 10))], false⟩ : RedisState Nat)
     "s1" 5 ⟨"tok", 7, 0⟩ 10 (by decide) (by decide) (by decide)⟩

/-- C3 counterexample: on a failing backend the completion endpoint
does not return a `{success: false, message, status_code}` body — it
raises `HTTPException(status_code=500)`. -/
theorem C3_counterexample :
    (complete_extension_auth (⟨[], true⟩ : RedisState Nat)
        ⟨"sess-1", "tok", 0⟩ 0).2 =
      .httpException 500 "Failed to store auth data: connection refused" ∧
    CompleteResult.isFailureBody
      (complete_extension_auth (⟨[], true⟩ : RedisState Nat)
        ⟨"sess-1", "tok", 0⟩ 0).2 = false := by
  decide

/-- C3 amended: on backend failure the status endpoint returns the
`{success: false, message, status_code: 500}` body and never reports
status "pending"; the completion endpoint raises an HTTPException
with status code 500 instead of returning a body. -/
theorem C3_backend_failure_amended {U : Type} (st : RedisState U) (sid : String)
    (req : ExtAuthComplete U) (now now' : Nat) (h : st.failing = true) :
    (get_extension_auth_status st sid now).2 =
      ⟨false, none, "Error checking auth status: connection refused", some 500⟩ ∧
    ((get_extension_auth_status st sid now).2).result ≠ some .pending ∧
    (complete_extension_auth st req now').2 =
      .httpException 500 "Failed to store auth data: connection refused" := by
  refine ⟨?_, ?_, ?_⟩ <;>
    simp [get_extension_auth_status, complete_extension_auth, redisGet,
      redisSetex, h]

/-- C3 amended witness at a concrete failing backend. -/
theorem C3_backend_failure_amended_witness :
    (⟨[], true⟩ : RedisState Nat).failing = true ∧
    ((get_extension_auth_status (⟨[], true⟩ : RedisState Nat) "s1" 4).2 =
      ⟨false, none, "Error checking auth status: connection refused", some 500⟩ ∧
     ((get_extension_auth_status (⟨[], true⟩ : RedisState Nat) "s1" 4).2).result ≠
       some .pending ∧
     (complete_extension_auth (⟨[], true⟩ : RedisState Nat) ⟨"s1", "tok", 9⟩ 4).2 =
       .httpException 500 "Failed to store auth data: connection refused") :=
  ⟨by decide,
   C3_backend_failure_amended (⟨[], true⟩ : RedisState Nat) "s1"
     ⟨"s1", "tok", 9⟩ 4 4 (by decide)⟩

end ExtAuth
